import Mathlib

/-!
Verification of the shopping-cart cost-optimisation program (src/main.py).

The program builds a mixed-integer program over a catalog of items and
offers: integer purchase variables per offer, a binary seller-usage
variable, an integer per-seller quantity, and three binary delivery-tier
indicators per seller, with big-M relaxed tier bounds.  After an Optimal
solve it extracts a seller-grouped purchase plan, per-seller delivery
fees, and a recomputed total cost.

The embedding below models the catalog data (load_cart), the constraint
system of solve_shopping_problem as a feasibility predicate over exact
integer assignments, and the solution-extraction code over rational
solver outputs (solver floats are modelled as rationals; Python int()
is truncation toward zero, Python round() is round-half-to-even).
-/

/-- Delivery fee for the small tier (source constant SMALL_DEL). -/
def SMALL_DEL : Int := 132

/-- Delivery fee for the medium tier (source constant MED_DEL). -/
def MED_DEL : Int := 237

/-- Delivery fee for the large tier (source constant BIG_DEL). -/
def BIG_DEL : Int := 2000

/-- The big-M relaxation constant of the source (a fixed number). -/
def BIG_M : Int := 100000

/-- One record of offer_catalog: item id, unit cost, available quantity,
seller name. -/
structure OfferData where
  item_id : String
  cost : Int
  available : Int
  seller : String
deriving DecidableEq

/-- The data load_cart returns: items_needed (item id, amount) in order,
the url table, and offer_catalog as an ordered association list, which
also carries the offer_ids order and the offer-to-seller map. -/
structure Cart where
  items_needed : List (String × Int)
  item_id_to_url : List (String × String)
  offer_catalog : List (String × OfferData)
deriving DecidableEq

/-- One seller record of the input document. -/
structure OfferInput where
  name : String
  cost : Int
  available : Int
deriving DecidableEq

/-- One item record of the input document. -/
structure ItemInput where
  amount : Int
  url : String
  sellers : List OfferInput
deriving DecidableEq

/-- The offer entries one input item contributes to the catalog: offers
with available less than or equal to 0 are skipped, the rest get the id
name_itemIndex_offerIndex and a record pointing back at the item. -/
def offerEntriesFor (item_index : Nat) (item_id : String)
    (sellers : List OfferInput) : List (String × OfferData) :=
  (List.enum sellers).filterMap (fun oj =>
    if oj.2.available ≤ 0 then none
    else some (oj.2.name ++ "_" ++ toString item_index ++ "_" ++ toString oj.1,
      { item_id := item_id, cost := oj.2.cost, available := oj.2.available,
        seller := oj.2.name }))

/-- Embedding of load_cart: items get ids item_0, item_1, ...; every
surviving offer is keyed and recorded in document order. -/
def load_cart (data : List ItemInput) : Cart :=
  { items_needed :=
      (List.enum data).map (fun it => ("item_" ++ toString it.1, it.2.amount))
    item_id_to_url :=
      (List.enum data).map (fun it => ("item_" ++ toString it.1, it.2.url))
    offer_catalog :=
      (List.enum data).flatMap (fun it =>
        offerEntriesFor it.1 ("item_" ++ toString it.1) it.2.sellers) }

/-- The item ids of a cart, in load order. -/
def itemIds (c : Cart) : List String := c.items_needed.map Prod.fst

/-- Insertion step for the ordered, deduplicated seller list (Python
dict-key order of seller_to_offers). -/
def sellerFold (acc : List String) (p : String × OfferData) : List String :=
  if p.2.seller ∈ acc then acc else acc ++ [p.2.seller]

/-- The sellers of a catalog in first-occurrence order, matching
list(seller_to_offers.keys()). -/
def sellersOf (l : List (String × OfferData)) : List String :=
  l.foldl sellerFold []

/-- The offers of one item, in catalog order (the list comprehension of
the demand constraint). -/
def itemOffers (c : Cart) (item : String) : List (String × OfferData) :=
  c.offer_catalog.filter (fun p => decide (p.2.item_id = item))

/-- The offers of one seller, in catalog order (seller_to_offers). -/
def sellerOffers (c : Cart) (s : String) : List (String × OfferData) :=
  c.offer_catalog.filter (fun p => decide (p.2.seller = s))

/-- Sum of available quantities over the offers of one item (the
availability pre-check of main). -/
def totalAvailable (c : Cart) (item : String) : Int :=
  ((itemOffers c item).map (fun p => p.2.available)).sum

/-- Total demand across the whole catalog. -/
def totalDemand (c : Cart) : Int := (c.items_needed.map Prod.snd).sum

/-- An exact integer assignment to all decision variables of the model:
buy (x), use_seller (y), qty_seller (q) and the three tier indicators. -/
structure Assign where
  buy : String → Int
  y : String → Int
  q : String → Int
  z1 : String → Int
  z2 : String → Int
  z3 : String → Int

/-- The model value sum(x[o] for o in offers of the item). -/
def itemBuySum (c : Cart) (a : Assign) (item : String) : Int :=
  ((itemOffers c item).map (fun p => a.buy p.1)).sum

/-- Variable domains: x integer at least 0, y binary, q integer at least
0, z1 z2 z3 binary. -/
def varDomainsOK (c : Cart) (a : Assign) : Prop :=
  (∀ p ∈ c.offer_catalog, 0 ≤ a.buy p.1) ∧
  ∀ s ∈ sellersOf c.offer_catalog,
    (a.y s = 0 ∨ a.y s = 1) ∧ 0 ≤ a.q s ∧
    (a.z1 s = 0 ∨ a.z1 s = 1) ∧ (a.z2 s = 0 ∨ a.z2 s = 1) ∧
    (a.z3 s = 0 ∨ a.z3 s = 1)

/-- Demand constraints: for every item the bought quantities over its
offers sum to exactly the needed amount. -/
def demandOK (c : Cart) (a : Assign) : Prop :=
  ∀ ip ∈ c.items_needed, itemBuySum c a ip.1 = ip.2

/-- Stock limits: x[o] is at most the available quantity of o. -/
def stockOK (c : Cart) (a : Assign) : Prop :=
  ∀ p ∈ c.offer_catalog, a.buy p.1 ≤ p.2.available

/-- Linkage: q[s] equals the sum of x over the offers of s, and
x[o] is at most available[o] * y[s] for every offer o of s. -/
def linkageOK (c : Cart) (a : Assign) : Prop :=
  ∀ s ∈ sellersOf c.offer_catalog,
    a.q s = ((sellerOffers c s).map (fun p => a.buy p.1)).sum ∧
    ∀ p ∈ sellerOffers c s, a.buy p.1 ≤ p.2.available * a.y s

/-- Tier selection: z1[s] + z2[s] + z3[s] = y[s]. -/
def tierSumOK (c : Cart) (a : Assign) : Prop :=
  ∀ s ∈ sellersOf c.offer_catalog, a.z1 s + a.z2 s + a.z3 s = a.y s

/-- Small-tier bound with big-M relaxation: q[s] at most
4 + (1 - z1[s]) * BIG_M. -/
def tierSmallOK (c : Cart) (a : Assign) : Prop :=
  ∀ s ∈ sellersOf c.offer_catalog, a.q s ≤ 4 + (1 - a.z1 s) * BIG_M

/-- Medium-tier bounds: q[s] at least 5 * z2[s] and at most
20 + (1 - z2[s]) * BIG_M. -/
def tierMediumOK (c : Cart) (a : Assign) : Prop :=
  ∀ s ∈ sellersOf c.offer_catalog,
    5 * a.z2 s ≤ a.q s ∧ a.q s ≤ 20 + (1 - a.z2 s) * BIG_M

/-- Large-tier bound: q[s] at least 21 * z3[s]. -/
def tierLargeOK (c : Cart) (a : Assign) : Prop :=
  ∀ s ∈ sellersOf c.offer_catalog, 21 * a.z3 s ≤ a.q s

/-- Feasibility for the full constraint system of
solve_shopping_problem. -/
def Feasible (c : Cart) (a : Assign) : Prop :=
  varDomainsOK c a ∧ demandOK c a ∧ stockOK c a ∧ linkageOK c a ∧
  tierSumOK c a ∧ tierSmallOK c a ∧ tierMediumOK c a ∧ tierLargeOK c a

/-- Python int() on a rational: truncation toward zero. -/
def pyInt (v : ℚ) : ℤ := if 0 ≤ v then ⌊v⌋ else ⌈v⌉

/-- Python round() on a rational: round half to even, phrased with
integer arithmetic on numerator and denominator (the fractional part
v - floor v is below one half iff 2 num < (2 floor + 1) den). -/
def pyRound (v : ℚ) : ℤ :=
  if 2 * v.num < (2 * ⌊v⌋ + 1) * (v.den : ℤ) then ⌊v⌋
  else if (2 * ⌊v⌋ + 1) * (v.den : ℤ) < 2 * v.num then ⌊v⌋ + 1
  else if ⌊v⌋ % 2 = 0 then ⌊v⌋ else ⌊v⌋ + 1

/-- The raw variable values a completed solve hands back (varValue may
be absent, and is a float, modelled as a rational). -/
structure SolverVals where
  xv : String → Option ℚ
  z1v : String → Option ℚ
  z2v : String → Option ℚ
  z3v : String → Option ℚ

/-- One extracted assignment record: (item id, offer id, quantity). -/
abbrev Entry := String × String × Int

/-- The seller-grouped assignment, in insertion order (defaultdict of
lists keyed by seller). -/
abbrev Assignment := List (String × List Entry)

/-- Append an entry to the bucket of a seller, creating the bucket at
the end when the seller is new (defaultdict(list) insertion order). -/
def addEntry : Assignment → String → Entry → Assignment
  | [], s, e => [(s, [e])]
  | sl :: rest, s, e =>
    if sl.1 = s then (sl.1, sl.2 ++ [e]) :: rest
    else sl :: addEntry rest s e

/-- The record the extraction loop produces for one offer: skipped when
varValue is absent or not strictly positive, otherwise the item id, the
offer id and int(qty). -/
def recordedEntry (vals : SolverVals) (p : String × OfferData) : Option Entry :=
  match vals.xv p.1 with
  | none => none
  | some v => if 0 < v then some (p.2.item_id, p.1, pyInt v) else none

/-- One step of the extraction loop over offer_ids. -/
def stepFn (vals : SolverVals) (A : Assignment) (p : String × OfferData) :
    Assignment :=
  match recordedEntry vals p with
  | none => A
  | some e => addEntry A p.2.seller e

/-- The seller-grouped assignment extracted from the solver values
(lines 104-110 of the source). -/
def assignFor (c : Cart) (vals : SolverVals) : Assignment :=
  c.offer_catalog.foldl (stepFn vals) []

/-- The seller keys of an assignment, in insertion order. -/
def sellersIn (A : Assignment) : List String := A.map Prod.fst

/-- The delivery fee the extraction attributes to one seller: first tier
indicator that rounds to 1 wins, otherwise 0 (lines 113-126). -/
def tierFeeFor (vals : SolverVals) (s : String) : Int :=
  if pyRound ((vals.z1v s).getD 0) = 1 then SMALL_DEL
  else if pyRound ((vals.z2v s).getD 0) = 1 then MED_DEL
  else if pyRound ((vals.z3v s).getD 0) = 1 then BIG_DEL
  else 0

/-- The delivery_costs dictionary, one entry per seller in seller
order. -/
def deliveryCostsList (c : Cart) (vals : SolverVals) : List (String × Int) :=
  (sellersOf c.offer_catalog).map (fun s => (s, tierFeeFor vals s))

/-- Dictionary get with default 0 over an association list. -/
def dget (l : List (String × Int)) (s : String) : Int :=
  ((l.find? (fun p => decide (p.1 = s))).map Prod.snd).getD 0

/-- Cost lookup offer_catalog[offer_id]["cost"]. -/
def lookupCost (c : Cart) (o : String) : Int :=
  ((c.offer_catalog.find? (fun p => decide (p.1 = o))).map
    (fun p => p.2.cost)).getD 0

/-- The recomputed total cost: per seller of the assignment, the sum of
cost times quantity over its records plus its delivery fee
(lines 128-132). -/
def totalCostOf (c : Cart) (vals : SolverVals) : Int :=
  ((assignFor c vals).map (fun sl =>
    (sl.2.map (fun e => lookupCost c e.2.1 * e.2.2)).sum +
      dget (deliveryCostsList c vals) sl.1)).sum

/-- The full extraction result the function returns on an Optimal
status. -/
structure Extraction where
  assignment : Assignment
  delivery : List (String × Int)
  total : Int
deriving DecidableEq

/-- Extraction of assignment, delivery costs and recomputed total. -/
def extractFrom (c : Cart) (vals : SolverVals) : Extraction :=
  { assignment := assignFor c vals
    delivery := deliveryCostsList c vals
    total := totalCostOf c vals }

/-- The PuLP status values the source can see. -/
inductive LpStatusT where
  | optimal
  | notSolved
  | infeasible
  | unbounded
  | undefined
deriving DecidableEq

/-- LpStatus name strings of PuLP. -/
def statusName : LpStatusT → String
  | .optimal => "Optimal"
  | .notSolved => "Not Solved"
  | .infeasible => "Infeasible"
  | .unbounded => "Unbounded"
  | .undefined => "Undefined"

/-- What solve_shopping_problem returns after the solver comes back:
the extraction for an Optimal status, None for every other status
(lines 100-102). -/
def solveResult (c : Cart) (st : LpStatusT) (vals : SolverVals) :
    Option Extraction :=
  if statusName st = "Optimal" then some (extractFrom c vals) else none

/-- Result of a whole run of main. -/
inductive MainResult where
  | insufficientStock (item : String)
  | solverReturned (r : Option Extraction)

/-- The first item whose aggregate availability is below its needed
amount (the pre-check loop of main returns at the first failure). -/
def firstInsufficient (c : Cart) : Option (String × Int) :=
  c.items_needed.find? (fun ip => decide (totalAvailable c ip.1 < ip.2))

/-- Embedding of main: the availability pre-check runs first and, when
an item is short, the run ends without consulting the solver (the
solver is a parameter and is only applied in the other branch). -/
def mainRun (c : Cart) (solver : Cart → LpStatusT × SolverVals) : MainResult :=
  match firstInsufficient c with
  | some ip => .insufficientStock ip.1
  | none => .solverReturned (solveResult c (solver c).1 (solver c).2)

/-- Solver values agreeing exactly with an integer assignment (the
idealised output of a solver that honors integrality exactly). -/
def exactVals (a : Assign) : SolverVals :=
  { xv := fun o => some ((a.buy o : ℤ) : ℚ)
    z1v := fun s => some ((a.z1 s : ℤ) : ℚ)
    z2v := fun s => some ((a.z2 s : ℤ) : ℚ)
    z3v := fun s => some ((a.z3 s : ℤ) : ℚ) }

/-- Weighted sum of a function over all records of an assignment. -/
def entrySum (f : String → Entry → Int) (A : Assignment) : Int :=
  (A.map (fun sl => (sl.2.map (f sl.1)).sum)).sum

/-- Plan quantities re-summed per item. -/
def planItemSum (A : Assignment) (item : String) : Int :=
  entrySum (fun _ e => if e.1 = item then e.2.2 else 0) A

/-- Plan quantities re-summed per offer id. -/
def planOfferSum (A : Assignment) (o : String) : Int :=
  entrySum (fun _ e => if e.2.1 = o then e.2.2 else 0) A

/-- Plan quantities re-summed per seller. -/
def planSellerQty (A : Assignment) (s : String) : Int :=
  entrySum (fun t e => if t = s then e.2.2 else 0) A

/-- The contribution of one catalog offer to an entrySum of the
extracted assignment. -/
def recContrib (vals : SolverVals) (f : String → Entry → Int)
    (p : String × OfferData) : Int :=
  match recordedEntry vals p with
  | none => 0
  | some e => f p.2.seller e

/-- The solver objective recomputed from raw variable values: item costs
plus delivery fees (the objective of lines 63-66 evaluated at the
returned floats). -/
def objectiveValue (c : Cart) (vals : SolverVals) : ℚ :=
  ((c.offer_catalog.map (fun p => ((vals.xv p.1).getD 0) * (p.2.cost : ℚ))).sum) +
  (((sellersOf c.offer_catalog).map (fun s =>
    (SMALL_DEL : ℚ) * ((vals.z1v s).getD 0) +
    (MED_DEL : ℚ) * ((vals.z2v s).getD 0) +
    (BIG_DEL : ℚ) * ((vals.z3v s).getD 0))).sum)

/-- Concrete offer used by the witnesses: item_0, cost 10, 10 available,
seller A. -/
def offerA : OfferData :=
  { item_id := "item_0", cost := 10, available := 10, seller := "A" }

/-- Concrete one-item one-seller cart used by the witnesses. -/
def cart1 : Cart :=
  { items_needed := [("item_0", 3)]
    item_id_to_url := [("item_0", "u")]
    offer_catalog := [("A_0_0", offerA)] }

/-- A feasible exact assignment for cart1: buy 3 from A, small tier. -/
def a1 : Assign :=
  { buy := fun o => if o = "A_0_0" then 3 else 0
    y := fun s => if s = "A" then 1 else 0
    q := fun s => if s = "A" then 3 else 0
    z1 := fun s => if s = "A" then 1 else 0
    z2 := fun _ => 0
    z3 := fun _ => 0 }

/-- Solver values with the float 2.9999 for the single offer of cart1
and small tier selected: the kind of near-integral output CBC returns
when the true optimum buys 3. -/
def vals4 : SolverVals :=
  { xv := fun o => if o = "A_0_0" then some (mkRat 29999 10000) else none
    z1v := fun s => if s = "A" then some 1 else none
    z2v := fun s => if s = "A" then some 0 else none
    z3v := fun s => if s = "A" then some 0 else none }

/-- Cart whose total demand exceeds the fixed BIG_M: one item needing
200000 units, one seller with 200000 available at cost 1. -/
def cart2 : Cart :=
  { items_needed := [("item_0", 200000)]
    item_id_to_url := [("item_0", "u")]
    offer_catalog :=
      [("A_0_0",
        { item_id := "item_0", cost := 1, available := 200000,
          seller := "A" })] }

/-- The only demand-exact stock-respecting assignment for cart2: buy all
200000 units from A under the large tier. -/
def a2 : Assign :=
  { buy := fun o => if o = "A_0_0" then 200000 else 0
    y := fun s => if s = "A" then 1 else 0
    q := fun s => if s = "A" then 200000 else 0
    z1 := fun _ => 0
    z2 := fun _ => 0
    z3 := fun s => if s = "A" then 1 else 0 }

/-- Cart with an item short on aggregate stock: needs 5, only 3
available. -/
def cart6 : Cart :=
  { items_needed := [("item_0", 5)]
    item_id_to_url := [("item_0", "u")]
    offer_catalog :=
      [("A_0_0",
        { item_id := "item_0", cost := 10, available := 3, seller := "A" })] }

/-- A constant solver oracle reporting Optimal. -/
def oracleOpt : Cart → LpStatusT × SolverVals :=
  fun _ => (LpStatusT.optimal, exactVals a1)

/-- A constant solver oracle reporting Infeasible. -/
def oracleInf : Cart → LpStatusT × SolverVals :=
  fun _ => (LpStatusT.infeasible, exactVals a1)

/-- Input document with one item and one zero-availability offer, used
to witness the catalog invariant. -/
def data9 : List ItemInput :=
  [{ amount := 2, url := "u",
     sellers := [{ name := "A", cost := 10, available := 5 },
                 { name := "B", cost := 8, available := 0 }] }]

instance decidableFeasible (c : Cart) (a : Assign) : Decidable (Feasible c a) := by
  unfold Feasible varDomainsOK demandOK stockOK linkageOK tierSumOK tierSmallOK
    tierMediumOK tierLargeOK
  infer_instance

theorem sum_map_congr {α : Type} (l : List α) (f g : α → Int)
    (h : ∀ x ∈ l, f x = g x) : (l.map f).sum = (l.map g).sum := by
  induction l with
  | nil => rfl
  | cons x xs ih =>
    simp only [List.map_cons, List.sum_cons]
    rw [h x (by simp), ih (fun y hy => h y (by simp [hy]))]

theorem sum_map_zero {α : Type} (l : List α) (f : α → Int)
    (h : ∀ x ∈ l, f x = 0) : (l.map f).sum = 0 := by
  induction l with
  | nil => rfl
  | cons x xs ih =>
    simp only [List.map_cons, List.sum_cons]
    rw [h x (by simp), ih (fun y hy => h y (by simp [hy]))]
    omega

theorem sum_map_filter_ite {α : Type} (l : List α) (q : α → Prop)
    [DecidablePred q] (f : α → Int) :
    ((l.filter (fun x => decide (q x))).map f).sum =
      (l.map (fun x => if q x then f x else 0)).sum := by
  induction l with
  | nil => rfl
  | cons x xs ih =>
    by_cases hq : q x
    · simp [List.filter_cons, hq, ih]
    · simp [List.filter_cons, hq, ih]

theorem sum_map_add_split {α : Type} (l : List α) (f g : α → Int) :
    (l.map (fun x => f x + g x)).sum = (l.map f).sum + (l.map g).sum := by
  induction l with
  | nil => rfl
  | cons x xs ih =>
    simp only [List.map_cons, List.sum_cons, ih]
    omega

theorem sum_map_eq_single {α β : Type} [DecidableEq β] (l : List α)
    (key : α → β) (hnd : (l.map key).Nodup) (p : α) (hp : p ∈ l)
    (g : α → Int) (hz : ∀ x ∈ l, key x ≠ key p → g x = 0) :
    (l.map g).sum = g p := by
  induction l with
  | nil => cases hp
  | cons x xs ih =>
    simp only [List.map_cons, List.sum_cons]
    rw [List.map_cons] at hnd
    have hnd2 := List.nodup_cons.mp hnd
    rcases List.mem_cons.mp hp with h | h
    · subst h
      have hrest : (xs.map g).sum = 0 := by
        apply sum_map_zero
        intro y hy
        apply hz y (List.mem_cons_of_mem _ hy)
        intro hk
        exact hnd2.1 (List.mem_map.mpr ⟨y, hy, hk⟩)
      rw [hrest]; omega
    · have hgx : g x = 0 := by
        apply hz x (List.mem_cons_self x xs)
        intro hk
        exact hnd2.1 (List.mem_map.mpr ⟨p, h, hk.symm⟩)
      rw [hgx, ih hnd2.2 h (fun y hy hk => hz y (List.mem_cons_of_mem _ hy) hk)]
      omega

theorem entrySum_cons (f : String → Entry → Int) (sl : String × List Entry)
    (A : Assignment) :
    entrySum f (sl :: A) = (sl.2.map (f sl.1)).sum + entrySum f A := by
  simp [entrySum]

theorem entrySum_addEntry (f : String → Entry → Int) (A : Assignment)
    (s : String) (e : Entry) :
    entrySum f (addEntry A s e) = entrySum f A + f s e := by
  induction A with
  | nil => simp [addEntry, entrySum]
  | cons sl rest ih =>
    by_cases h : sl.1 = s
    · rw [show addEntry (sl :: rest) s e = (sl.1, sl.2 ++ [e]) :: rest from by
        simp [addEntry, h]]
      rw [entrySum_cons, entrySum_cons]
      simp only [List.map_append, List.sum_append, List.map_cons,
        List.map_nil, List.sum_cons, List.sum_nil, h]
      omega
    · rw [show addEntry (sl :: rest) s e = sl :: addEntry rest s e from by
        simp [addEntry, h]]
      rw [entrySum_cons, entrySum_cons, ih]
      omega

theorem entrySum_foldl (vals : SolverVals) (f : String → Entry → Int)
    (l : List (String × OfferData)) (A : Assignment) :
    entrySum f (l.foldl (stepFn vals) A) =
      entrySum f A + (l.map (recContrib vals f)).sum := by
  induction l generalizing A with
  | nil => simp
  | cons p ps ih =>
    rw [List.foldl_cons, ih]
    simp only [List.map_cons, List.sum_cons]
    cases hrec : recordedEntry vals p with
    | none => simp [stepFn, hrec, recContrib]
    | some e =>
      simp only [stepFn, hrec, recContrib, entrySum_addEntry]
      omega

theorem entrySum_assignFor (c : Cart) (vals : SolverVals)
    (f : String → Entry → Int) :
    entrySum f (assignFor c vals) =
      (c.offer_catalog.map (recContrib vals f)).sum := by
  rw [assignFor, entrySum_foldl]
  simp [entrySum]

theorem addEntry_cases (A : Assignment) (s : String) (e : Entry)
    (sl : String × List Entry) (h : sl ∈ addEntry A s e) :
    sl ∈ A ∨
    (sl.1 = s ∧ (sl.2 = [e] ∨ ∃ l, (sl.1, l) ∈ A ∧ sl.2 = l ++ [e])) := by
  induction A with
  | nil =>
    simp only [addEntry, List.mem_singleton] at h
    right
    exact ⟨by rw [h], Or.inl (by rw [h])⟩
  | cons hd rest ih =>
    by_cases h1 : hd.1 = s
    · rw [show addEntry (hd :: rest) s e = (hd.1, hd.2 ++ [e]) :: rest from by
        simp [addEntry, h1]] at h
      rcases List.mem_cons.mp h with h2 | h2
      · right
        refine ⟨by rw [h2]; exact h1, Or.inr ⟨hd.2, ?_, by rw [h2]⟩⟩
        rw [h2]
        exact List.mem_cons_self hd rest
      · exact Or.inl (List.mem_cons_of_mem _ h2)
    · rw [show addEntry (hd :: rest) s e = hd :: addEntry rest s e from by
        simp [addEntry, h1]] at h
      rcases List.mem_cons.mp h with h2 | h2
      · exact Or.inl (by rw [h2]; exact List.mem_cons_self hd rest)
      · rcases ih h2 with h3 | ⟨h3, h4⟩
        · exact Or.inl (List.mem_cons_of_mem _ h3)
        · refine Or.inr ⟨h3, ?_⟩
          rcases h4 with h4 | ⟨l, hl, h5⟩
          · exact Or.inl h4
          · exact Or.inr ⟨l, List.mem_cons_of_mem _ hl, h5⟩

theorem addEntry_preserve (P : String → Entry → Prop) (A : Assignment)
    (s : String) (e : Entry)
    (hA : ∀ sl ∈ A, sl.2 ≠ [] ∧ ∀ x ∈ sl.2, P sl.1 x) (he : P s e) :
    ∀ sl ∈ addEntry A s e, sl.2 ≠ [] ∧ ∀ x ∈ sl.2, P sl.1 x := by
  intro sl hsl
  rcases addEntry_cases A s e sl hsl with h | ⟨h1, h2⟩
  · exact hA sl h
  · rcases h2 with h2 | ⟨l, hl, h2⟩
    · refine ⟨by simp [h2], ?_⟩
      intro x hx
      rw [h2] at hx
      rw [List.mem_singleton.mp hx, h1]
      exact he
    · refine ⟨by simp [h2], ?_⟩
      intro x hx
      rw [h2] at hx
      rcases List.mem_append.mp hx with hx | hx
      · exact (hA (sl.1, l) hl).2 x hx
      · rw [List.mem_singleton.mp hx, h1]
        exact he

theorem foldl_preserve (P : String → Entry → Prop) (vals : SolverVals)
    (l : List (String × OfferData)) (A : Assignment)
    (hA : ∀ sl ∈ A, sl.2 ≠ [] ∧ ∀ x ∈ sl.2, P sl.1 x)
    (hl : ∀ p ∈ l, ∀ e, recordedEntry vals p = some e → P p.2.seller e) :
    ∀ sl ∈ l.foldl (stepFn vals) A, sl.2 ≠ [] ∧ ∀ x ∈ sl.2, P sl.1 x := by
  induction l generalizing A with
  | nil => simpa using hA
  | cons p ps ih =>
    rw [List.foldl_cons]
    apply ih
    · cases hrec : recordedEntry vals p with
      | none => simpa [stepFn, hrec] using hA
      | some e =>
        simp only [stepFn, hrec]
        exact addEntry_preserve P A p.2.seller e hA (hl p (by simp) e hrec)
    · intro q hq e he
      exact hl q (by simp [hq]) e he

theorem assignFor_buckets (c : Cart) (vals : SolverVals) :
    ∀ sl ∈ assignFor c vals, sl.2 ≠ [] ∧ ∀ x ∈ sl.2,
      ∃ p ∈ c.offer_catalog, p.2.seller = sl.1 ∧
        recordedEntry vals p = some x := by
  intro sl hsl
  refine foldl_preserve
    (fun t x => ∃ p ∈ c.offer_catalog, p.2.seller = t ∧
      recordedEntry vals p = some x)
    vals c.offer_catalog [] ?_ ?_ sl (by rwa [assignFor] at hsl)
  · intro sl2 h
    cases h
  · intro p hp e he
    exact ⟨p, hp, rfl, he⟩

theorem mem_foldl_sellerFold (l : List (String × OfferData))
    (acc : List String) (s : String) (hs : s ∈ acc) :
    s ∈ l.foldl sellerFold acc := by
  induction l generalizing acc with
  | nil => simpa using hs
  | cons p ps ih =>
    rw [List.foldl_cons]
    apply ih
    by_cases h : p.2.seller ∈ acc
    · simpa [sellerFold, h] using hs
    · simp only [sellerFold, if_neg h]
      exact List.mem_append.mpr (Or.inl hs)

theorem seller_mem_sellersOf_aux (l : List (String × OfferData))
    (acc : List String) :
    ∀ p ∈ l, p.2.seller ∈ l.foldl sellerFold acc := by
  induction l generalizing acc with
  | nil =>
    intro p hp
    cases hp
  | cons q qs ih =>
    intro p hp
    rw [List.foldl_cons]
    rcases List.mem_cons.mp hp with h | h
    · rw [h]
      apply mem_foldl_sellerFold
      by_cases hmem : q.2.seller ∈ acc
      · simp only [sellerFold, if_pos hmem]
        exact hmem
      · simp only [sellerFold, if_neg hmem]
        exact List.mem_append.mpr (Or.inr (List.mem_singleton.mpr rfl))
    · exact ih (sellerFold acc q) p h

theorem seller_mem_sellersOf (c : Cart) (p : String × OfferData)
    (hp : p ∈ c.offer_catalog) : p.2.seller ∈ sellersOf c.offer_catalog :=
  seller_mem_sellersOf_aux c.offer_catalog [] p hp

theorem sellersIn_origin (c : Cart) (vals : SolverVals) (s : String)
    (hs : s ∈ sellersIn (assignFor c vals)) :
    ∃ p ∈ c.offer_catalog, p.2.seller = s ∧
      ∃ e, recordedEntry vals p = some e := by
  rw [sellersIn] at hs
  rcases List.mem_map.mp hs with ⟨sl, hsl, h1⟩
  obtain ⟨hne, hall⟩ := assignFor_buckets c vals sl hsl
  obtain ⟨x, hx⟩ := List.exists_mem_of_ne_nil sl.2 hne
  obtain ⟨p, hp, hps, hrec⟩ := hall x hx
  exact ⟨p, hp, by rw [hps, h1], x, hrec⟩

theorem pyInt_intCast (n : ℤ) : pyInt ((n : ℚ)) = n := by
  unfold pyInt
  by_cases h : (0:ℚ) ≤ (n:ℚ)
  · rw [if_pos h, Int.floor_intCast]
  · rw [if_neg h, Int.ceil_intCast]

theorem pyRound_intCast (n : ℤ) : pyRound ((n : ℚ)) = n := by
  unfold pyRound
  rw [Int.floor_intCast, Rat.num_intCast, Rat.den_intCast]
  rw [if_pos (by norm_num)]

theorem recordedEntry_exact (a : Assign) (p : String × OfferData) :
    recordedEntry (exactVals a) p =
      if 0 < a.buy p.1 then some (p.2.item_id, p.1, a.buy p.1) else none := by
  simp only [recordedEntry, exactVals]
  by_cases h : 0 < a.buy p.1
  · rw [if_pos (by exact_mod_cast h), if_pos h, pyInt_intCast]
  · rw [if_neg (by exact_mod_cast h), if_neg h]

theorem tierFeeFor_exact (a : Assign) (s : String) :
    tierFeeFor (exactVals a) s =
      if a.z1 s = 1 then SMALL_DEL
      else if a.z2 s = 1 then MED_DEL
      else if a.z3 s = 1 then BIG_DEL
      else 0 := by
  simp only [tierFeeFor, exactVals, Option.getD_some, pyRound_intCast]

theorem dget_map_fee (l : List String) (g : String → Int) (s : String)
    (hs : s ∈ l) : dget (l.map (fun t => (t, g t))) s = g s := by
  induction l with
  | nil => cases hs
  | cons t ts ih =>
    simp only [List.map_cons]
    by_cases h : t = s
    · rw [dget, List.find?_cons_of_pos _ (by simp [h])]
      simp [h]
    · rw [dget, List.find?_cons_of_neg _ (by simp [h])]
      rcases List.mem_cons.mp hs with h1 | h1
      · exact absurd h1.symm h
      · exact ih h1

theorem totalCost_split (c : Cart) (vals : SolverVals) :
    totalCostOf c vals =
      entrySum (fun _ e => lookupCost c e.2.1 * e.2.2) (assignFor c vals) +
      ((sellersIn (assignFor c vals)).map
        (dget (deliveryCostsList c vals))).sum := by
  rw [totalCostOf, sum_map_add_split]
  congr 1
  rw [sellersIn, List.map_map]
  rfl

theorem recContrib_exact (a : Assign) (f : String → Entry → Int)
    (p : String × OfferData) :
    recContrib (exactVals a) f p =
      if 0 < a.buy p.1 then f p.2.seller (p.2.item_id, p.1, a.buy p.1)
      else 0 := by
  rw [recContrib, recordedEntry_exact]
  by_cases hb : 0 < a.buy p.1
  · rw [if_pos hb, if_pos hb]
  · rw [if_neg hb, if_neg hb]

theorem exact_plan_sum (c : Cart) (a : Assign)
    (hnonneg : ∀ p ∈ c.offer_catalog, 0 ≤ a.buy p.1)
    (cond : (String × OfferData) → Prop) [DecidablePred cond]
    (f : String → Entry → Int)
    (hf : ∀ p ∈ c.offer_catalog,
      recContrib (exactVals a) f p =
        if 0 < a.buy p.1 then (if cond p then a.buy p.1 else 0) else 0) :
    entrySum f (assignFor c (exactVals a)) =
      ((c.offer_catalog.filter (fun p => decide (cond p))).map
        (fun p => a.buy p.1)).sum := by
  rw [entrySum_assignFor, sum_map_filter_ite]
  apply sum_map_congr
  intro p hp
  rw [hf p hp]
  have h0 := hnonneg p hp
  by_cases hb : 0 < a.buy p.1
  · rw [if_pos hb]
  · rw [if_neg hb]
    by_cases hc : cond p
    · rw [if_pos hc]
      omega
    · rw [if_neg hc]

theorem planSellerQty_exact (c : Cart) (a : Assign)
    (hnonneg : ∀ p ∈ c.offer_catalog, 0 ≤ a.buy p.1) (s : String) :
    planSellerQty (assignFor c (exactVals a)) s =
      ((sellerOffers c s).map (fun p => a.buy p.1)).sum := by
  rw [planSellerQty, sellerOffers]
  apply exact_plan_sum c a hnonneg (fun p => p.2.seller = s)
  intro p hp
  rw [recContrib_exact]

/-- C1: for every Item of the Catalog the model carries an equality
constraint making the bought quantities over its Offers sum to exactly
the required amount, and the extracted PurchasePlan, re-summed per Item,
reproduces the required amount exactly. -/
theorem c1_demand_exact (c : Cart) (a : Assign) (h : Feasible c a)
    (ip : String × Int) (hip : ip ∈ c.items_needed) :
    itemBuySum c a ip.1 = ip.2 ∧
    planItemSum (assignFor c (exactVals a)) ip.1 = ip.2 := by
  obtain ⟨hdom, hdem, hrest⟩ := h
  refine ⟨hdem ip hip, ?_⟩
  rw [planItemSum]
  rw [exact_plan_sum c a hdom.1 (fun p => p.2.item_id = ip.1)
    (fun _ e => if e.1 = ip.1 then e.2.2 else 0)
    (fun p _ => recContrib_exact a _ p)]
  exact hdem ip hip

/-- C1 witness: the concrete one-item cart and its feasible assignment
buy 3 of item_0 from seller A. -/
theorem c1_demand_exact_witness :
    itemBuySum cart1 a1 "item_0" = 3 ∧
    planItemSum (assignFor cart1 (exactVals a1)) "item_0" = 3 :=
  c1_demand_exact cart1 a1 (by decide) ("item_0", 3) (by decide)

/-- C2: the claim that the relaxation constant is demand-derived and
strictly exceeds every feasible qty_seller value fails on the code: for
a catalog with total demand 200000 the fixed BIG_M of 100000 makes both
relaxed tier bounds bind on the unique demand-exact stock-respecting
assignment (which satisfies every other constraint), while the
demand-derived constant of the claim would leave them slack. -/
theorem c2_fixed_bigM_binds :
    totalDemand cart2 = 200000 ∧ BIG_M = 100000 ∧
    varDomainsOK cart2 a2 ∧ demandOK cart2 a2 ∧ stockOK cart2 a2 ∧
    linkageOK cart2 a2 ∧ tierSumOK cart2 a2 ∧
    21 * a2.z3 "A" ≤ a2.q "A" ∧
    5 * a2.z2 "A" ≤ a2.q "A" ∧
    4 + (1 - a2.z1 "A") * BIG_M < a2.q "A" ∧
    20 + (1 - a2.z2 "A") * BIG_M < a2.q "A" ∧
    a2.q "A" ≤ 4 + (1 - a2.z1 "A") * totalDemand cart2 ∧
    a2.q "A" ≤ 20 + (1 - a2.z2 "A") * totalDemand cart2 := by
  refine ⟨by decide, by decide, ?_, ?_, ?_, ?_, ?_, by decide, by decide,
    by decide, by decide, by decide, by decide⟩
  · unfold varDomainsOK
    decide
  · unfold demandOK
    decide
  · unfold stockOK
    decide
  · unfold linkageOK
    decide
  · unfold tierSumOK
    decide

/-- C7: the model carries the stock cap for every Offer, and the
extracted plan, re-summed per distinct offer id, never exceeds that
Offer's availability (offer ids are distinct in a loaded catalog, and
availability is positive by the catalog invariant). -/
theorem c7_stock_cap (c : Cart) (a : Assign) (h : Feasible c a)
    (hnd : (c.offer_catalog.map Prod.fst).Nodup)
    (hpos : ∀ x ∈ c.offer_catalog, 0 < x.2.available)
    (p : String × OfferData) (hp : p ∈ c.offer_catalog) :
    a.buy p.1 ≤ p.2.available ∧
    planOfferSum (assignFor c (exactVals a)) p.1 ≤ p.2.available := by
  obtain ⟨hdom, hdem, hstock, hrest⟩ := h
  refine ⟨hstock p hp, ?_⟩
  rw [planOfferSum, entrySum_assignFor]
  rw [sum_map_eq_single c.offer_catalog Prod.fst hnd p hp _ ?_]
  · rw [recContrib_exact]
    by_cases hb : 0 < a.buy p.1
    · rw [if_pos hb]
      simpa using hstock p hp
    · rw [if_neg hb]
      exact le_of_lt (hpos p hp)
  · intro x hx hne
    rw [recContrib_exact]
    by_cases hb : 0 < a.buy x.1
    · rw [if_pos hb, if_neg hne]
    · rw [if_neg hb]

/-- C7 witness: the concrete cart and assignment, at its single offer
with 10 available. -/
theorem c7_stock_cap_witness :
    a1.buy "A_0_0" ≤ 10 ∧
    planOfferSum (assignFor cart1 (exactVals a1)) "A_0_0" ≤ 10 :=
  c7_stock_cap cart1 a1 (by decide) (by decide) (by decide)
    ("A_0_0", offerA) (by decide)

/-- C3: the model ties the three tier indicators to seller usage by
z1 + z2 + z3 = y, every feasible assignment respects the tier-quantity
bounds (q at most 4 under small, between 5 and 20 under medium, at
least 21 under large, all indicators zero when the seller is unused),
and every seller appearing in the extracted plan gets exactly one tier,
a plan quantity equal to qty_seller lying inside that tier's band, and
that tier's delivery fee. -/
theorem c3_tier_consistency (c : Cart) (a : Assign) (h : Feasible c a)
    (t : String) (ht : t ∈ sellersOf c.offer_catalog)
    (s : String) (hs : s ∈ sellersIn (assignFor c (exactVals a))) :
    (a.z1 t + a.z2 t + a.z3 t = a.y t) ∧
    ((a.z1 t = 0 ∧ a.z2 t = 0 ∧ a.z3 t = 0 ∧ a.y t = 0) ∨
     (a.z1 t = 1 ∧ a.z2 t = 0 ∧ a.z3 t = 0 ∧ a.y t = 1 ∧ a.q t ≤ 4) ∨
     (a.z1 t = 0 ∧ a.z2 t = 1 ∧ a.z3 t = 0 ∧ a.y t = 1 ∧
        5 ≤ a.q t ∧ a.q t ≤ 20) ∨
     (a.z1 t = 0 ∧ a.z2 t = 0 ∧ a.z3 t = 1 ∧ a.y t = 1 ∧ 21 ≤ a.q t)) ∧
    planSellerQty (assignFor c (exactVals a)) s = a.q s ∧
    ((a.z1 s = 1 ∧ a.z2 s = 0 ∧ a.z3 s = 0 ∧ 1 ≤ a.q s ∧ a.q s ≤ 4 ∧
        dget (deliveryCostsList c (exactVals a)) s = SMALL_DEL) ∨
     (a.z1 s = 0 ∧ a.z2 s = 1 ∧ a.z3 s = 0 ∧ 5 ≤ a.q s ∧ a.q s ≤ 20 ∧
        dget (deliveryCostsList c (exactVals a)) s = MED_DEL) ∨
     (a.z1 s = 0 ∧ a.z2 s = 0 ∧ a.z3 s = 1 ∧ 21 ≤ a.q s ∧
        dget (deliveryCostsList c (exactVals a)) s = BIG_DEL)) := by
  obtain ⟨hdom, hdem, hstock, hlink, hsum, hsmall, hmed, hlarge⟩ := h
  obtain ⟨p, hp, hps, e, hrec⟩ := sellersIn_origin c (exactVals a) s hs
  have hbuy : 0 < a.buy p.1 := by
    rw [recordedEntry_exact] at hrec
    by_cases hb : 0 < a.buy p.1
    · exact hb
    · rw [if_neg hb] at hrec
      cases hrec
  have hsmem : s ∈ sellersOf c.offer_catalog := by
    rw [← hps]
    exact seller_mem_sellersOf c p hp
  have hpsel : p ∈ sellerOffers c s :=
    List.mem_filter.mpr ⟨hp, by simp [hps]⟩
  have hdoms := hdom.2 s hsmem
  have hlinks := hlink s hsmem
  have hys : a.y s = 1 := by
    rcases hdoms.1 with hy | hy
    · exfalso
      have := hlinks.2 p hpsel
      rw [hy] at this
      omega
    · exact hy
  have hq1 : 1 ≤ a.q s := by
    rw [hlinks.1]
    have hmem : a.buy p.1 ∈ (sellerOffers c s).map (fun x => a.buy x.1) :=
      List.mem_map.mpr ⟨p, hpsel, rfl⟩
    have hle := List.single_le_sum (l := (sellerOffers c s).map
      (fun x => a.buy x.1)) ?_ _ hmem
    · omega
    · intro x hx
      rcases List.mem_map.mp hx with ⟨x2, hx2, hx3⟩
      rw [← hx3]
      exact hdom.1 x2 (List.mem_filter.mp hx2).1
  have hfee : dget (deliveryCostsList c (exactVals a)) s =
      tierFeeFor (exactVals a) s := by
    rw [deliveryCostsList]
    exact dget_map_fee (sellersOf c.offer_catalog) (tierFeeFor (exactVals a))
      s hsmem
  have hzs : (a.z1 s = 1 ∧ a.z2 s = 0 ∧ a.z3 s = 0 ∧ 1 ≤ a.q s ∧
        a.q s ≤ 4) ∨
      (a.z1 s = 0 ∧ a.z2 s = 1 ∧ a.z3 s = 0 ∧ 5 ≤ a.q s ∧ a.q s ≤ 20) ∨
      (a.z1 s = 0 ∧ a.z2 s = 0 ∧ a.z3 s = 1 ∧ 21 ≤ a.q s) := by
    have h1 := hsum s hsmem
    have h2 := hsmall s hsmem
    have h3 := hmed s hsmem
    have h4 := hlarge s hsmem
    simp only [BIG_M] at h2 h3
    rcases hdoms.2.2.1 with hz | hz <;> rcases hdoms.2.2.2.1 with hz2 | hz2 <;>
      rcases hdoms.2.2.2.2 with hz3 | hz3 <;> omega
  refine ⟨hsum t ht, ?_, ?_, ?_⟩
  · have h1 := hsum t ht
    have h2 := hsmall t ht
    have h3 := hmed t ht
    have h4 := hlarge t ht
    have hdomt := hdom.2 t ht
    simp only [BIG_M] at h2 h3
    rcases hdomt.1 with hy | hy <;> rcases hdomt.2.2.1 with hz | hz <;>
      rcases hdomt.2.2.2.1 with hz2 | hz2 <;>
      rcases hdomt.2.2.2.2 with hz3 | hz3 <;> omega
  · rw [planSellerQty_exact c a hdom.1 s]
    exact (hlinks.1).symm
  · rcases hzs with ⟨h1, h2, h3, h4, h5⟩ | ⟨h1, h2, h3, h4, h5⟩ |
      ⟨h1, h2, h3, h4⟩
    · refine Or.inl ⟨h1, h2, h3, h4, h5, ?_⟩
      rw [hfee, tierFeeFor_exact, if_pos h1]
    · refine Or.inr (Or.inl ⟨h1, h2, h3, h4, h5, ?_⟩)
      rw [hfee, tierFeeFor_exact, if_neg (by omega), if_pos h2]
    · refine Or.inr (Or.inr ⟨h1, h2, h3, h4, ?_⟩)
      rw [hfee, tierFeeFor_exact, if_neg (by omega), if_neg (by omega),
        if_pos h3]

/-- C3 witness: seller A of the concrete cart appears in the plan with
quantity 3, small tier, fee SMALL_DEL. -/
theorem c3_tier_consistency_witness :
    planSellerQty (assignFor cart1 (exactVals a1)) "A" = a1.q "A" ∧
    ((a1.z1 "A" = 1 ∧ a1.z2 "A" = 0 ∧ a1.z3 "A" = 0 ∧ 1 ≤ a1.q "A" ∧
        a1.q "A" ≤ 4 ∧
        dget (deliveryCostsList cart1 (exactVals a1)) "A" = SMALL_DEL) ∨
     (a1.z1 "A" = 0 ∧ a1.z2 "A" = 1 ∧ a1.z3 "A" = 0 ∧ 5 ≤ a1.q "A" ∧
        a1.q "A" ≤ 20 ∧
        dget (deliveryCostsList cart1 (exactVals a1)) "A" = MED_DEL) ∨
     (a1.z1 "A" = 0 ∧ a1.z2 "A" = 0 ∧ a1.z3 "A" = 1 ∧ 21 ≤ a1.q "A" ∧
        dget (deliveryCostsList cart1 (exactVals a1)) "A" = BIG_DEL)) :=
  ⟨(c3_tier_consistency cart1 a1 (by decide) "A" (by decide) "A"
      (by decide)).2.2.1,
   (c3_tier_consistency cart1 a1 (by decide) "A" (by decide) "A"
      (by decide)).2.2.2⟩

/-- C4 counterexample: a completed Optimal solve whose recomputed total
(152) differs from the solver objective evaluated at the returned
values (161999/1000, a gap of about 10 currency units, far beyond any
rounding tolerance) is still returned as a normal result: the code has
no reconciliation check and no error path for the mismatch. -/
theorem c4_mismatch_not_reported :
    solveResult cart1 LpStatusT.optimal vals4 =
      some (extractFrom cart1 vals4) ∧
    totalCostOf cart1 vals4 = 152 ∧
    objectiveValue cart1 vals4 = 161999 / 1000 := by
  refine ⟨rfl, by decide, ?_⟩
  simp only [objectiveValue, cart1, vals4, offerA, sellersOf, sellerFold,
    SMALL_DEL, MED_DEL, BIG_DEL, List.map_cons, List.map_nil, List.sum_cons,
    List.sum_nil, List.foldl]
  norm_num [Rat.mkRat_eq_div]

/-- C4 amended: the total cost is recomputed independently from the
extracted records and the tier fees (item costs plus fees of exactly
the sellers present in the assignment) and that recomputed figure is
the one returned, but the solver objective is never consulted: every
Optimal solve returns the extraction unconditionally. -/
theorem c4_recompute_returned (c : Cart) (vals : SolverVals) :
    solveResult c LpStatusT.optimal vals = some (extractFrom c vals) ∧
    (extractFrom c vals).total = totalCostOf c vals ∧
    totalCostOf c vals =
      entrySum (fun _ e => lookupCost c e.2.1 * e.2.2) (assignFor c vals) +
      ((sellersIn (assignFor c vals)).map
        (dget (deliveryCostsList c vals))).sum :=
  ⟨rfl, rfl, totalCost_split c vals⟩

/-- C5: the extraction truncates the solver float toward zero with
int() instead of rounding to nearest, and performs no tolerance check:
for the returned value 2.9999 (nearest integer 3) the plan records
quantity 2 and the solve still returns normally. -/
theorem c5_truncation_not_rounding :
    assignFor cart1 vals4 = [("A", [("item_0", "A_0_0", 2)])] ∧
    pyInt (mkRat 29999 10000) = 2 ∧
    round (mkRat 29999 10000) = 3 ∧
    solveResult cart1 LpStatusT.optimal vals4 =
      some (extractFrom cart1 vals4) := by
  refine ⟨by decide, by decide, ?_, rfl⟩
  rw [round_eq]
  norm_num [Rat.mkRat_eq_div]

/-- C6: whenever some item is short on aggregate stock, the run reports
the first such item and ends with the same result whatever the solver
would answer, i.e. the solver is never consulted. -/
theorem c6_stock_precheck (c : Cart)
    (solver1 solver2 : Cart → LpStatusT × SolverVals)
    (h : ∃ ip ∈ c.items_needed, totalAvailable c ip.1 < ip.2) :
    mainRun c solver1 = mainRun c solver2 ∧
    ∃ jp ∈ c.items_needed, totalAvailable c jp.1 < jp.2 ∧
      mainRun c solver1 = MainResult.insufficientStock jp.1 := by
  have hsome : (firstInsufficient c).isSome := by
    rw [firstInsufficient]
    apply List.find?_isSome.mpr
    obtain ⟨ip, hip, hlt⟩ := h
    exact ⟨ip, hip, by simpa using hlt⟩
  obtain ⟨jp, hjp⟩ := Option.isSome_iff_exists.mp hsome
  have hmem : jp ∈ c.items_needed := by
    rw [firstInsufficient] at hjp
    exact List.mem_of_find?_eq_some hjp
  have hlt : totalAvailable c jp.1 < jp.2 := by
    rw [firstInsufficient] at hjp
    have := List.find?_some hjp
    simpa using this
  refine ⟨?_, jp, hmem, hlt, ?_⟩
  · rw [mainRun, mainRun, hjp]
  · rw [mainRun, hjp]

/-- C6 witness: the short cart with two different solver oracles. -/
theorem c6_stock_precheck_witness :
    mainRun cart6 oracleOpt = mainRun cart6 oracleInf :=
  (c6_stock_precheck cart6 oracleOpt oracleInf
    ⟨("item_0", 5), by decide, by decide⟩).1

/-- C8 counterexample: an Infeasible status and an Undefined (solver
failure) status produce the identical caller-visible result None, so
the caller cannot distinguish no-feasible-plan from solver failure. -/
theorem c8_statuses_indistinguishable :
    solveResult cart1 LpStatusT.infeasible (exactVals a1) =
      solveResult cart1 LpStatusT.undefined (exactVals a1) ∧
    solveResult cart1 LpStatusT.infeasible (exactVals a1) = none :=
  ⟨rfl, rfl⟩

/-- C8 amended: every non-Optimal solve returns None, never a partial
result; the insufficient-stock case is distinguished upstream by the
pre-check, but all non-Optimal solver statuses collapse to the same
None with one generic message. -/
theorem c8_no_partial_result (c : Cart) (st : LpStatusT)
    (vals : SolverVals) (h : st ≠ LpStatusT.optimal) :
    solveResult c st vals = none := by
  cases st with
  | optimal => exact absurd rfl h
  | notSolved => rfl
  | infeasible => rfl
  | unbounded => rfl
  | undefined => rfl

/-- C8 witness: the Not Solved status at the concrete cart. -/
theorem c8_no_partial_result_witness :
    solveResult cart1 LpStatusT.notSolved (exactVals a1) = none :=
  c8_no_partial_result cart1 LpStatusT.notSolved (exactVals a1) (by decide)

/-- C9: every offer materialized by load_cart has strictly positive
availability and references an item id present in the same catalog. -/
theorem c9_catalog_invariant (data : List ItemInput)
    (p : String × OfferData) (hp : p ∈ (load_cart data).offer_catalog) :
    0 < p.2.available ∧ p.2.item_id ∈ itemIds (load_cart data) := by
  simp only [load_cart] at hp
  rcases List.mem_flatMap.mp hp with ⟨it, hit, hent⟩
  simp only [offerEntriesFor] at hent
  rcases List.mem_filterMap.mp hent with ⟨oj, hoj, hsome⟩
  by_cases hav : oj.2.available ≤ 0
  · rw [if_pos hav] at hsome
    cases hsome
  · rw [if_neg hav] at hsome
    have hpeq := Option.some.inj hsome
    constructor
    · rw [← hpeq]
      show 0 < oj.2.available
      omega
    · rw [← hpeq, itemIds]
      simp only [load_cart, List.map_map]
      exact List.mem_map.mpr ⟨it, hit, rfl⟩

/-- C9 witness: the zero-availability offer of seller B is not
materialized and the surviving offer of seller A satisfies the
invariant. -/
theorem c9_catalog_invariant_witness :
    0 < (5:Int) ∧ "item_0" ∈ itemIds (load_cart data9) :=
  c9_catalog_invariant data9
    ("A_0_0", { item_id := "item_0", cost := 10, available := 5,
                seller := "A" }) (by decide)

/-- C10: when the solver values are exact integers, every record of the
seller-grouped assignment has strictly positive quantity, every seller
bucket is nonempty, and the grand total sums delivery fees only over
the sellers that appear in the assignment. -/
theorem c10_positive_records (c : Cart) (vals : SolverVals)
    (hint : ∀ o v, vals.xv o = some v → ∃ n : ℤ, v = (n : ℚ))
    (sl : String × List Entry) (hsl : sl ∈ assignFor c vals)
    (e : Entry) (he : e ∈ sl.2) :
    0 < e.2.2 ∧ 0 < sl.2.length ∧
    totalCostOf c vals =
      entrySum (fun _ x => lookupCost c x.2.1 * x.2.2) (assignFor c vals) +
      ((sellersIn (assignFor c vals)).map
        (dget (deliveryCostsList c vals))).sum := by
  have hb := foldl_preserve (fun _ x => 0 < x.2.2) vals c.offer_catalog []
    (by intro sl2 h2; cases h2) ?_ sl (by rwa [assignFor] at hsl)
  · exact ⟨hb.2 e he, List.length_pos.mpr hb.1, totalCost_split c vals⟩
  · intro p hp x hx
    rw [recordedEntry] at hx
    cases hxv : vals.xv p.1 with
    | none =>
      rw [hxv] at hx
      cases hx
    | some v =>
      rw [hxv] at hx
      dsimp only at hx
      by_cases h0 : 0 < v
      · rw [if_pos h0] at hx
        obtain ⟨n, hn⟩ := hint p.1 v hxv
        have hx2 := Option.some.inj hx
        rw [← hx2]
        rw [hn] at h0
        have hn0 : 0 < n := by exact_mod_cast h0
        simpa [pyInt_intCast, hn] using hn0
      · rw [if_neg h0] at hx
        cases hx

/-- C10 witness: the exact integral values of the concrete assignment,
at the single record of seller A. -/
theorem c10_positive_records_witness :
    0 < (3:Int) ∧
    0 < [("item_0", "A_0_0", (3:Int))].length ∧
    totalCostOf cart1 (exactVals a1) =
      entrySum (fun _ x => lookupCost cart1 x.2.1 * x.2.2)
        (assignFor cart1 (exactVals a1)) +
      ((sellersIn (assignFor cart1 (exactVals a1))).map
        (dget (deliveryCostsList cart1 (exactVals a1)))).sum :=
  c10_positive_records cart1 (exactVals a1)
    (fun o v h => ⟨a1.buy o, (Option.some.inj h).symm⟩)
    ("A", [("item_0", "A_0_0", 3)]) (by decide)
    ("item_0", "A_0_0", 3) (by decide)

